import Mathlib

/-!
Shallow embedding of the Actor/Agent runtime core of the EverMemoryArchive
repository, together with theorems settling the frozen claims about it.

The embedding covers:
* the `Agent` main loop (tool dispatch, structured-reply interception,
  abort checkpoints, terminal events),
* the `ActorWorker` facade (input validation, buffer messages, preemption,
  queue pickup, event history and subscriber snapshots, serialised buffer
  writes),
* the `ContextManager` history summarisation of the CLI agent variant,
* the `TimedTaskScheduler.iterateTimed` async iterator.

Effectful collaborators (the LLM client, tool implementations, the clock
and the local-timezone date formatter, the summarising LLM) are modelled
as explicit function parameters; promise chains and the cooperative abort
flag are modelled by explicit state passing.
-/

namespace EMA

/-- A content item of a message.  The source models `{type:"text", text}`
plus other tagged shapes; non-text items are only ever observed through
`JSON.stringify`, which we carry as an opaque rendering. -/
inductive Content where
  | text (text : String)
  | other (rendered : String)
deriving DecidableEq, Repr

/-- Whether a content item is a text item (`input.type === "text"`). -/
def Content.isText : Content → Bool
  | .text _ => true
  | .other _ => false

/-- Result of a tool execution: `{success, content?, error?}`. -/
structure ToolResult where
  success : Bool
  content : Option String := none
  error : Option String := none
deriving DecidableEq, Repr

/-- Tool-call arguments: a JSON object, modelled as key/value pairs. -/
def Args := List (String × String)
deriving DecidableEq, Repr

/-- A tool call produced by the LLM: `{id, name, args}`. -/
structure ToolCall where
  id : String
  name : String
  args : Args
deriving DecidableEq, Repr

/-- A message of the agent history (the `schema` of the actor variant):
user, model (assistant, with optional tool calls, `undefined` and `[]`
merged to the empty list) and tool-result messages. -/
inductive Message where
  | user (contents : List Content)
  | model (contents : List Content) (toolCalls : List ToolCall)
  | tool (id : Option String) (name : String) (result : ToolResult)
deriving DecidableEq, Repr

/-- An LLM response: the model message plus finish reason and the
cumulative token count reported by the provider. -/
structure LLMResponse where
  contents : List Content
  toolCalls : List ToolCall
  finishReason : String
  totalTokens : Nat
deriving DecidableEq, Repr

/-- Outcome of one `llm.generate` call as classified by the main loop:
success, an abort error (`isAbortError`), `RetryExhaustedError`, or any
other error. -/
inductive LLMOutcome where
  | ok (resp : LLMResponse)
  | abortError (msg : String)
  | retryExhausted (attempts : Nat) (lastError : String)
  | otherError (msg : String)

/-- Outcome of one `tool.execute(...)` call: a returned `ToolResult` or a
thrown exception (name, message, stack). -/
inductive ExecOutcome where
  | ok (r : ToolResult)
  | threw (name : String) (msg : String) (stack : String)

/-- A tool of the agent tool set.  Argument marshalling (positional
passing in schema order) is absorbed into `exec`. -/
structure Tool where
  name : String
  exec : Args → ExecOutcome

/-- The events emitted by an agent run.  `runFinished` carries `ok`, a
message and (when `ok = false`) an error; `emaReplyReceived` carries the
tool-result content the source passes to `JSON.parse`. -/
inductive AgentEvent where
  | runFinished (ok : Bool) (msg : String) (error : Option String)
  | emaReplyReceived (content : Option String)
deriving DecidableEq, Repr

/-- The event `Agent.finishAborted` emits:
`runFinished{ok:false, msg:"Aborted", error:Error("Aborted")}`. -/
def abortedEvent : AgentEvent :=
  .runFinished false "Aborted" (some "Aborted")

/-- The cooperative abort flag.  `abortFrom = some k` means `abort()` was
requested just before the `k`-th poll of `abortRequested`; the flag stays
set once raised.  `none` means abort is never requested. -/
def abortRequested (abortFrom : Option Nat) (checkpoint : Nat) : Bool :=
  match abortFrom with
  | none => false
  | some k => decide (k ≤ checkpoint)

/-- `new Map(tools.map(t => [t.name, t]))` followed by `get`: a later
tool with the same name overwrites an earlier one. -/
def lookupTool (tools : List Tool) (name : String) : Option Tool :=
  tools.foldl (fun acc t => if t.name = name then some t else acc) none

/-- Executes one tool call as the main loop does: unknown names yield a
synthetic failure, a returned result is used as is, and a thrown
exception is converted to a failure result carrying the traceback. -/
def execToolCall (tools : List Tool) (tc : ToolCall) : ToolResult :=
  match lookupTool tools tc.name with
  | none => { success := false, error := some ("Unknown tool: " ++ tc.name) }
  | some t =>
    match t.exec tc.args with
    | .ok r => r
    | .threw n m tr =>
      { success := false,
        error := some
          ("Tool execution failed: " ++ n ++ ": " ++ m
            ++ "\n\nTraceback:\n" ++ tr) }

/-- The structured-reply interception of the main loop: when the result
is successful and the tool is the privileged `ema_reply`, emit one
`emaReplyReceived` with the result content and null the content out
before the result is appended to history. -/
def interceptEmaReply (tc : ToolCall) (result : ToolResult) :
    ToolResult × List AgentEvent :=
  if result.success && tc.name == "ema_reply" then
    ({ result with content := none },
      [AgentEvent.emaReplyReceived result.content])
  else
    (result, [])

/-- Result of processing the tool calls of one LLM turn: either the run
was aborted at a pre-tool checkpoint (terminal), or all calls completed
and the loop continues. -/
inductive ToolPhase where
  | aborted (msgs : List Message) (evs : List AgentEvent)
  | completed (checkpoint : Nat) (msgs : List Message) (evs : List AgentEvent)

/-- Processes the tool calls of one turn in order, polling the abort flag
before each call, executing and intercepting each call, and appending the
Tool message with the original call id and tool name. -/
def runToolCalls (tools : List Tool) (abortFrom : Option Nat) :
    List ToolCall → Nat → List Message → List AgentEvent → ToolPhase
  | [], cp, msgs, evs => .completed cp msgs evs
  | tc :: rest, cp, msgs, evs =>
    if abortRequested abortFrom cp then
      .aborted msgs (evs ++ [abortedEvent])
    else
      let r := execToolCall tools tc
      let ie := interceptEmaReply tc r
      runToolCalls tools abortFrom rest (cp + 1)
        (msgs ++ [Message.tool (some tc.id) tc.name ie.1])
        (evs ++ ie.2)

/-- The terminal message when `maxSteps` is exhausted. -/
def maxStepsMsg (maxSteps : Nat) : String :=
  "Task couldn\x27t be completed after " ++ toString maxSteps ++ " steps."

/-- One execution of `Agent.mainLoop` from a given step budget,
checkpoint counter, history and event log.  The LLM is a function of the
current history; `fuel` is `maxSteps - step`.  Mirrors the source: abort
poll at loop top, LLM call with error classification (note that the
generic-error branch only logs and returns), post-call abort poll, model
message append, success terminal on empty tool calls, tool-call
processing, and the max-steps terminal. -/
def mainLoopAux (llm : List Message → LLMOutcome) (tools : List Tool)
    (abortFrom : Option Nat) (maxSteps : Nat) :
    Nat → Nat → List Message → List AgentEvent →
      List Message × List AgentEvent
  | 0, _cp, msgs, evs =>
    (msgs, evs ++ [AgentEvent.runFinished false (maxStepsMsg maxSteps)
      (some (maxStepsMsg maxSteps))])
  | fuel + 1, cp, msgs, evs =>
    if abortRequested abortFrom cp then
      (msgs, evs ++ [abortedEvent])
    else
      match llm msgs with
      | .abortError _ => (msgs, evs ++ [abortedEvent])
      | .retryExhausted attempts lastError =>
        (msgs, evs ++ [AgentEvent.runFinished false
          ("LLM call failed after " ++ toString attempts
            ++ " retries. Last error: " ++ lastError)
          (some lastError)])
      | .otherError _ => (msgs, evs)
      | .ok resp =>
        if abortRequested abortFrom (cp + 1) then
          (msgs, evs ++ [abortedEvent])
        else
          let msgs1 := msgs ++ [Message.model resp.contents resp.toolCalls]
          if resp.toolCalls.isEmpty then
            (msgs1, evs ++ [AgentEvent.runFinished true resp.finishReason none])
          else
            match runToolCalls tools abortFrom resp.toolCalls (cp + 2) msgs1 evs with
            | .aborted m e => (m, e)
            | .completed cp2 m e =>
              mainLoopAux llm tools abortFrom maxSteps fuel cp2 m e

/-- `Agent.mainLoop`: runs the step-bounded loop on an initial history
with an empty event log, returning the final history and the events
emitted in order. -/
def mainLoop (llm : List Message → LLMOutcome) (tools : List Tool)
    (abortFrom : Option Nat) (maxSteps : Nat) (msgs : List Message) :
    List Message × List AgentEvent :=
  mainLoopAux llm tools abortFrom maxSteps maxSteps 0 msgs []

/-! ### Agent-side claims: tool-result invariant and terminal events -/

/-- The invariant claimed for every appended ToolResult:
`success ⇔ content present ⇔ no error`. -/
def claimToolResultInv (r : ToolResult) : Prop :=
  (r.success = true ↔ r.content.isSome = true) ∧
  (r.content.isSome = true ↔ r.error = none)

/-- The contract the repository's own tools satisfy (e.g. `EmaReplyTool`):
a success result carries content and no error; a failure carries an
error. -/
def resultInv (r : ToolResult) : Prop :=
  (r.success = true → r.content.isSome = true ∧ r.error = none) ∧
  (r.success = false → r.error.isSome = true)

/-- The invariant that actually holds of a ToolResult appended to history
under the name `name`: failures carry an error, and successes carry
content — except the intercepted structured-reply result, which carries
neither content nor error. -/
def appendedResultInv (name : String) (r : ToolResult) : Prop :=
  (r.success = false → r.error.isSome = true) ∧
  (r.success = true →
    (r.content.isSome = true ∧ r.error = none) ∨
    (name = "ema_reply" ∧ r.content = none ∧ r.error = none))

/-- Every tool in the set returns results satisfying `resultInv`. -/
def toolsWellBehaved (tools : List Tool) : Prop :=
  ∀ t ∈ tools, ∀ args r, t.exec args = .ok r → resultInv r

/-- Every tool message of a history satisfies `appendedResultInv`. -/
def historyResultsInv (msgs : List Message) : Prop :=
  ∀ id name r, Message.tool id name r ∈ msgs → appendedResultInv name r

theorem lookupTool_mem {tools : List Tool} {name : String} {t : Tool}
    (h : lookupTool tools name = some t) : t ∈ tools := by
  suffices h' : ∀ (l : List Tool) (acc : Option Tool),
      l.foldl (fun acc t => if t.name = name then some t else acc) acc = some t →
      t ∈ l ∨ acc = some t by
    rcases h' tools none h with h | h
    · exact h
    · simp at h
  intro l
  induction l with
  | nil => intro acc h; exact Or.inr h
  | cons hd tl ih =>
    intro acc h
    rcases ih _ h with h | h
    · exact Or.inl (List.mem_cons_of_mem _ h)
    · by_cases hn : hd.name = name
      · simp [hn] at h
        exact Or.inl (h ▸ List.mem_cons_self _ _)
      · simp [hn] at h
        exact Or.inr h

theorem resultInv_execToolCall {tools : List Tool} (tc : ToolCall)
    (hw : toolsWellBehaved tools) : resultInv (execToolCall tools tc) := by
  cases hl : lookupTool tools tc.name with
  | none =>
    simp only [execToolCall, hl]
    exact ⟨by simp, by simp⟩
  | some t =>
    cases he : t.exec tc.args with
    | ok r =>
      simp only [execToolCall, hl, he]
      exact hw t (lookupTool_mem hl) tc.args r he
    | threw n m tr =>
      simp only [execToolCall, hl, he]
      exact ⟨by simp, by simp⟩

theorem appendedResultInv_intercept {tc : ToolCall} {r : ToolResult}
    (hr : resultInv r) : appendedResultInv tc.name (interceptEmaReply tc r).1 := by
  by_cases hc : r.success && tc.name == "ema_reply"
  · have hs : r.success = true := (Bool.and_eq_true_iff.mp hc).1
    have hn : tc.name = "ema_reply" := eq_of_beq (Bool.and_eq_true_iff.mp hc).2
    have hfst : (interceptEmaReply tc r).1 = { r with content := none } := by
      simp [interceptEmaReply, hc]
    rw [hfst]
    constructor
    · intro hfalse; rw [hs] at hfalse; cases hfalse
    · intro _; exact Or.inr ⟨hn, rfl, (hr.1 hs).2⟩
  · have hfst : (interceptEmaReply tc r).1 = r := by
      simp [interceptEmaReply, hc]
    rw [hfst]
    exact ⟨fun hf => hr.2 hf, fun hs => Or.inl (hr.1 hs)⟩

theorem historyResultsInv_append_tool {msgs : List Message}
    {id : Option String} {name : String} {r : ToolResult}
    (h : historyResultsInv msgs) (hr : appendedResultInv name r) :
    historyResultsInv (msgs ++ [Message.tool id name r]) := by
  intro i n res hmem
  rcases List.mem_append.mp hmem with hmem | hmem
  · exact h i n res hmem
  · simp at hmem
    obtain ⟨_, h2, h3⟩ := hmem
    exact h2 ▸ h3 ▸ hr

theorem historyResultsInv_append_model {msgs : List Message}
    {cs : List Content} {tcs : List ToolCall}
    (h : historyResultsInv msgs) :
    historyResultsInv (msgs ++ [Message.model cs tcs]) := by
  intro i n res hmem
  rcases List.mem_append.mp hmem with hmem | hmem
  · exact h i n res hmem
  · simp at hmem

/-- The messages of a `ToolPhase` result. -/
def ToolPhase.msgsOf : ToolPhase → List Message
  | .aborted m _ => m
  | .completed _ m _ => m

theorem historyResultsInv_runToolCalls (tools : List Tool)
    (abortFrom : Option Nat) (hw : toolsWellBehaved tools) :
    ∀ (calls : List ToolCall) (cp : Nat) (msgs : List Message)
      (evs : List AgentEvent), historyResultsInv msgs →
      historyResultsInv (runToolCalls tools abortFrom calls cp msgs evs).msgsOf := by
  intro calls
  induction calls with
  | nil => intro cp msgs evs h; exact h
  | cons tc rest ih =>
    intro cp msgs evs h
    unfold runToolCalls
    by_cases hab : abortRequested abortFrom cp
    · simp only [hab, if_true]; exact h
    · simp only [hab, if_false, Bool.false_eq_true]
      exact ih _ _ _ (historyResultsInv_append_tool h
        (appendedResultInv_intercept (resultInv_execToolCall tc hw)))

theorem historyResultsInv_mainLoopAux
    {llm : List Message → LLMOutcome} {tools : List Tool}
    {abortFrom : Option Nat} {maxSteps : Nat}
    (hw : toolsWellBehaved tools) :
    ∀ (fuel cp : Nat) (msgs : List Message) (evs : List AgentEvent),
      historyResultsInv msgs →
      historyResultsInv (mainLoopAux llm tools abortFrom maxSteps fuel cp msgs evs).1 := by
  intro fuel
  induction fuel with
  | zero => intro cp msgs evs h; exact h
  | succ fuel ih =>
    intro cp msgs evs h
    unfold mainLoopAux
    by_cases hab : abortRequested abortFrom cp
    · simp only [hab, if_true]; exact h
    · simp only [hab, if_false, Bool.false_eq_true]
      cases hllm : llm msgs with
      | abortError m => exact h
      | retryExhausted a e => exact h
      | otherError m => exact h
      | ok resp =>
        by_cases hab2 : abortRequested abortFrom (cp + 1)
        · simp only [hab2, if_true]; exact h
        · simp only [hab2, if_false, Bool.false_eq_true]
          by_cases hempty : resp.toolCalls.isEmpty
          · simp only [hempty, if_true]
            exact historyResultsInv_append_model h
          · simp only [hempty, if_false, Bool.false_eq_true]
            have hinv := historyResultsInv_runToolCalls tools abortFrom hw resp.toolCalls (cp + 2)
              (msgs ++ [Message.model resp.contents resp.toolCalls]) evs
              (historyResultsInv_append_model h)
            cases hrun : runToolCalls tools abortFrom resp.toolCalls (cp + 2)
                (msgs ++ [Message.model resp.contents resp.toolCalls]) evs with
            | aborted m e =>
              rw [hrun] at hinv; exact hinv
            | completed cp2 m e =>
              rw [hrun] at hinv; exact ih cp2 m e hinv

/-- C4 (amended).  For every run whose tools return well-behaved results
and whose initial history satisfies the invariant, every ToolResult
appended to history satisfies: `success=false` implies an error is
present, and `success=true` implies content is present and no error —
except the intercepted structured-reply (`ema_reply`) result, which has
`success=true`, no content and no error. -/
theorem agent_toolResults_invariant
    (llm : List Message → LLMOutcome) (tools : List Tool)
    (abortFrom : Option Nat) (maxSteps : Nat) (msgs : List Message)
    (hw : toolsWellBehaved tools) (h0 : historyResultsInv msgs) :
    historyResultsInv (mainLoop llm tools abortFrom maxSteps msgs).1 :=
  historyResultsInv_mainLoopAux hw maxSteps 0 msgs [] h0

/-- A stub tool named `ema_reply` whose execution always succeeds with
content, matching `EmaReplyTool.execute` on valid arguments. -/
def emaOkTool : Tool :=
  { name := "ema_reply",
    exec := fun _ => .ok { success := true, content := some "reply-json", error := none } }

/-- An LLM script: first turn calls `ema_reply` once, second turn stops. -/
def c4llm : List Message → LLMOutcome := fun msgs =>
  if msgs.length ≤ 1 then
    .ok { contents := [], toolCalls := [{ id := "c1", name := "ema_reply", args := [] }],
          finishReason := "tool_calls", totalTokens := 10 }
  else
    .ok { contents := [Content.text "done"], toolCalls := [],
          finishReason := "stop", totalTokens := 20 }

/-- C4 (counterexample).  In a run where the structured-reply tool
succeeds, the Tool message appended after interception has
`success=true` but no content, refuting `success ⇔ content present ⇔ no
error` for every appended ToolResult. -/
theorem agent_toolResults_claim_counterexample :
    ¬ (∀ (id : Option String) (name : String) (r : ToolResult),
        Message.tool id name r ∈
          (mainLoop c4llm [emaOkTool] none 2 [Message.user [Content.text "hi"]]).1 →
        claimToolResultInv r) := by
  intro h
  exact absurd
    (h (some "c1") "ema_reply" { success := true, content := none, error := none }
      (by decide))
    (by simp [claimToolResultInv])

/-- Witness for the amended C4 theorem at the concrete counterexample
run. -/
theorem agent_toolResults_invariant_witness :
    toolsWellBehaved [emaOkTool] ∧
    historyResultsInv [Message.user [Content.text "hi"]] ∧
    historyResultsInv
      (mainLoop c4llm [emaOkTool] none 2 [Message.user [Content.text "hi"]]).1 := by
  have hw : toolsWellBehaved [emaOkTool] := by
    intro t ht args r he
    rcases List.mem_singleton.mp ht with rfl
    simp only [emaOkTool] at he
    cases he
    exact ⟨fun _ => ⟨rfl, rfl⟩, fun h => by cases h⟩
  have h0 : historyResultsInv [Message.user [Content.text "hi"]] := by
    intro i n r hmem
    simp at hmem
  exact ⟨hw, h0,
    agent_toolResults_invariant c4llm [emaOkTool] none 2 _ hw h0⟩

/-- C5.  When the structured-reply tool executes successfully for a tool
call, processing that call emits exactly one `emaReplyReceived` (carrying
the result content handed to the reply parser) and appends the Tool
message for that call with its content nulled out. -/
theorem emaReply_interception (tools : List Tool) (abortFrom : Option Nat)
    (tc : ToolCall) (rest : List ToolCall) (cp : Nat)
    (msgs : List Message) (evs : List AgentEvent)
    (hab : abortRequested abortFrom cp = false)
    (hname : tc.name = "ema_reply")
    (hsucc : (execToolCall tools tc).success = true) :
    runToolCalls tools abortFrom (tc :: rest) cp msgs evs =
      runToolCalls tools abortFrom rest (cp + 1)
        (msgs ++ [Message.tool (some tc.id) tc.name
          { execToolCall tools tc with content := none }])
        (evs ++ [AgentEvent.emaReplyReceived (execToolCall tools tc).content]) := by
  have hcond : ((execToolCall tools tc).success && tc.name == "ema_reply") = true := by
    rw [hsucc, hname]; rfl
  simp only [runToolCalls, hab, Bool.false_eq_true, if_false,
    interceptEmaReply, hcond, if_true]

/-- Witness for C5 at a concrete successful `ema_reply` call. -/
theorem emaReply_interception_witness :
    abortRequested none 0 = false ∧
    (⟨"c1", "ema_reply", []⟩ : ToolCall).name = "ema_reply" ∧
    (execToolCall [emaOkTool] ⟨"c1", "ema_reply", []⟩).success = true ∧
    runToolCalls [emaOkTool] none [⟨"c1", "ema_reply", []⟩] 0 [] [] =
      runToolCalls [emaOkTool] none [] 1
        [Message.tool (some "c1") "ema_reply"
          { execToolCall [emaOkTool] ⟨"c1", "ema_reply", []⟩ with content := none }]
        [AgentEvent.emaReplyReceived
          (execToolCall [emaOkTool] ⟨"c1", "ema_reply", []⟩).content] :=
  ⟨rfl, rfl, by decide,
    emaReply_interception [emaOkTool] none ⟨"c1", "ema_reply", []⟩ [] 0 [] []
      rfl rfl (by decide)⟩

/-- The LLM failing with an error that is neither an abort nor
RetryExhausted, used to exhibit the missing `runFinished` emission. -/
def boomLLM : List Message → LLMOutcome := fun _ => .otherError "boom"

/-- C1 (divergence).  When the LLM call fails with a generic error (not
an abort, not RetryExhausted), the main loop logs and returns without
emitting any event at all: the run produces zero `runFinished` events,
contradicting the exactly-one-`runFinished` contract. -/
theorem mainLoop_otherError_no_runFinished :
    (mainLoop boomLLM [] none 1 [Message.user [Content.text "hi"]]).2 = [] := by
  decide

/-! ### Buffer messages and system-prompt injection -/

/-- The payload of a persisted buffer message: a user message or an EMA
(structured-reply) message, each a list of contents. -/
inductive BufPayload where
  | user (contents : List Content)
  | ema (contents : List Content)
deriving DecidableEq, Repr

/-- The role tag of a payload, as rendered into prompts. -/
def BufPayload.role : BufPayload → String
  | .user _ => "user"
  | .ema _ => "ema"

/-- The contents of a payload. -/
def BufPayload.contents : BufPayload → List Content
  | .user cs => cs
  | .ema cs => cs

/-- A persisted buffer log entry: `{id, name, time, message}`. -/
structure BufferMessage where
  id : Int
  name : String
  time : Int
  message : BufPayload
deriving DecidableEq, Repr

/-- `BufferMessage.fromUser`: wraps user inputs with the user identity
and a timestamp. -/
def bufferMessageFromUser (userId : Int) (userName : String)
    (inputs : List Content) (time : Int) : BufferMessage :=
  { id := userId, name := userName, time := time, message := .user inputs }

/-- `BufferMessage.fromEma`: wraps the serialised structured reply under
the name `ema`. -/
def bufferMessageFromEma (id : Int) (replyJson : String) (time : Int) :
    BufferMessage :=
  { id := id, name := "ema", time := time,
    message := .ema [Content.text replyJson] }

/-- How `toPrompt` renders one content part: the text of a text part,
`JSON.stringify` of anything else. -/
def contentPromptText : Content → String
  | .text t => t
  | .other rendered => rendered

/-- `BufferMessage.toPrompt`: one line
`- [time][role:X][id:N][name:...] <text>` where the time is rendered by
the (local-timezone) date formatter `fmt`. -/
def bufferMessageToPrompt (fmt : Int → String) (m : BufferMessage) : String :=
  "- [" ++ fmt m.time ++ "][role:" ++ m.message.role ++ "][id:"
    ++ toString m.id ++ "][name:" ++ m.name ++ "] "
    ++ String.intercalate "\n" (m.message.contents.map contentPromptText)

/-- `BufferMessage.toUserMessage`: a user message with a `[CONTEXT]`
header prepended (only ever called on user payloads by the worker). -/
def bufferMessageToUserMessage (fmt : Int → String) (m : BufferMessage) :
    Message :=
  Message.user (Content.text
      ("[CONTEXT]\ntime: " ++ fmt m.time ++ "\nid: " ++ toString m.id
        ++ "\nname: " ++ m.name ++ "\n[/CONTEXT]")
    :: m.message.contents)

/-- `array.slice(-n)`: the last `n` elements. -/
def lastN (n : Nat) (l : List α) : List α :=
  l.drop (l.length - n)

/-- JavaScript `String.prototype.replace` with a string pattern: replaces
only the first occurrence (the pattern is nonempty in all uses here). -/
def replaceFirstChars (pat rep : List Char) : List Char → List Char
  | [] => []
  | c :: rest =>
    if pat.isPrefixOf (c :: rest) then rep ++ (c :: rest).drop pat.length
    else c :: replaceFirstChars pat rep rest

/-- `s.replace(pat, rep)` for a string pattern (first occurrence only). -/
def jsReplaceFirst (s pat rep : String) : String :=
  ⟨replaceFirstChars pat.data rep.data s.data⟩

/-- `ActorWorker.buildSystemPrompt`: renders up to the last 10 buffer
messages (one per line, `None.` when empty) and substitutes them for the
`{MEMORY_BUFFER}` placeholder via `String.replace` with a string
pattern. -/
def buildSystemPrompt (fmt : Int → String) (buffer : List BufferMessage)
    (systemPrompt : String) : String :=
  let bufferWindow := lastN 10 buffer
  let bufferText :=
    if bufferWindow.isEmpty then "None."
    else String.intercalate "\n" (bufferWindow.map (bufferMessageToPrompt fmt))
  jsReplaceFirst systemPrompt "{MEMORY_BUFFER}" bufferText

/-- C2 (divergence).  With an empty buffer, a system prompt containing
two `{MEMORY_BUFFER}` placeholders has only its first occurrence
replaced by `None.`; the second placeholder survives verbatim, contrary
to the every-occurrence contract. -/
theorem buildSystemPrompt_replaces_only_first_occurrence :
    ∀ fmt : Int → String,
      buildSystemPrompt fmt []
          "A: {MEMORY_BUFFER} B: {MEMORY_BUFFER}" =
        "A: None. B: {MEMORY_BUFFER}" := by
  intro fmt
  show jsReplaceFirst "A: {MEMORY_BUFFER} B: {MEMORY_BUFFER}"
      "{MEMORY_BUFFER}" "None." = "A: None. B: {MEMORY_BUFFER}"
  decide

/-! ### The serialised buffer-write promise chain -/

/-- One enqueued buffer write: the message plus the outcome of its
`addBuffer` call (`none` = resolves, `some e` = rejects with `e`). -/
structure BufferWrite where
  message : BufferMessage
  failure : Option String
deriving DecidableEq, Repr

/-- The state of the `bufferWritePromise` chain: the persisted buffer,
the current rejection carried by the chain (the catch handler rethrows),
and the errors logged so far. -/
structure BufferChainState where
  buffer : List BufferMessage
  rejection : Option String
  logged : List String
deriving DecidableEq, Repr

/-- One link of the chain, `then(() => addBuffer(message)).catch(log;
rethrow)`: on a rejected chain the write is skipped and the catch logs
and rethrows the carried error; otherwise the write runs and, on
failure, its error is logged and carried onwards. -/
def bufferChainStep (st : BufferChainState) (w : BufferWrite) :
    BufferChainState :=
  match st.rejection with
  | some e => { st with logged := st.logged ++ [e] }
  | none =>
    match w.failure with
    | none => { st with buffer := st.buffer ++ [w.message] }
    | some e => { st with rejection := some e, logged := st.logged ++ [e] }

/-- Running a sequence of enqueued writes through the chain in arrival
order. -/
def runBufferChain (st : BufferChainState) (ws : List BufferWrite) :
    BufferChainState :=
  ws.foldl bufferChainStep st

/-- The error of the first failing write, if any. -/
def firstFailure : List BufferWrite → Option String
  | [] => none
  | w :: rest =>
    match w.failure with
    | some e => some e
    | none => firstFailure rest

/-- The errors the chain logs: the first failure, once at its own link
and once more at every later link. -/
def chainLogs (ws : List BufferWrite) : List String :=
  match firstFailure ws with
  | none => []
  | some e =>
    List.replicate (ws.length - (ws.takeWhile (fun w => w.failure.isNone)).length) e

/-- A first write that fails. -/
def failingWrite : BufferWrite :=
  ⟨bufferMessageFromUser 1 "User" [Content.text "a"] 0, some "db down"⟩

/-- A second write that would succeed. -/
def laterWrite : BufferWrite :=
  ⟨bufferMessageFromUser 1 "User" [Content.text "b"] 1, none⟩

/-- C3 (counterexample).  When the first enqueued write fails, the next
enqueued write is never performed: its message does not reach the
buffer, refuting the claim that a failed write does not block later
writes. -/
theorem bufferChain_failed_write_blocks_later_writes :
    laterWrite.message ∉
      (runBufferChain ⟨[], none, []⟩ [failingWrite, laterWrite]).buffer ∧
    (runBufferChain ⟨[], none, []⟩ [failingWrite, laterWrite]).buffer = [] ∧
    (runBufferChain ⟨[], none, []⟩ [failingWrite, laterWrite]).logged =
      ["db down", "db down"] := by
  decide

theorem runBufferChain_rejected (e : String) :
    ∀ (ws : List BufferWrite) (buf : List BufferMessage) (logs : List String),
      runBufferChain ⟨buf, some e, logs⟩ ws =
        ⟨buf, some e, logs ++ List.replicate ws.length e⟩ := by
  intro ws
  induction ws with
  | nil => intro buf logs; simp [runBufferChain]
  | cons w rest ih =>
    intro buf logs
    simp only [runBufferChain, List.foldl_cons] at *
    rw [show bufferChainStep ⟨buf, some e, logs⟩ w =
        ⟨buf, some e, logs ++ [e]⟩ from rfl]
    rw [ih buf (logs ++ [e])]
    simp [List.replicate_succ, List.append_assoc]

/-- C3 (amended).  Buffer writes are serialised in arrival order, but a
failed write blocks all later writes: exactly the writes before the
first failure are performed, in arrival order; the chain then carries
the first failure, which is logged at its own link and at every later
link. -/
theorem bufferChain_serialised_until_first_failure
    (ws : List BufferWrite) (buf : List BufferMessage) :
    runBufferChain ⟨buf, none, []⟩ ws =
      ⟨buf ++ (ws.takeWhile (fun w => w.failure.isNone)).map
          (fun w => w.message),
        firstFailure ws, chainLogs ws⟩ := by
  induction ws generalizing buf with
  | nil => simp [runBufferChain, firstFailure, chainLogs]
  | cons w rest ih =>
    cases hf : w.failure with
    | none =>
      have hstep : bufferChainStep ⟨buf, none, []⟩ w =
          ⟨buf ++ [w.message], none, []⟩ := by
        simp [bufferChainStep, hf]
      simp only [runBufferChain, List.foldl_cons] at *
      rw [hstep, ih (buf ++ [w.message])]
      have htw : (w :: rest).takeWhile (fun w => w.failure.isNone) =
          w :: rest.takeWhile (fun w => w.failure.isNone) := by
        simp [List.takeWhile_cons, hf]
      have hff : firstFailure (w :: rest) = firstFailure rest := by
        simp [firstFailure, hf]
      have hcl : chainLogs (w :: rest) = chainLogs rest := by
        simp only [chainLogs, hff, htw]
        cases firstFailure rest with
        | none => rfl
        | some e => simp [List.length_cons, Nat.succ_sub_succ]
      rw [htw, hff, hcl]
      simp [List.append_assoc]
    | some e =>
      have hstep : bufferChainStep ⟨buf, none, []⟩ w =
          ⟨buf, some e, [e]⟩ := by
        simp [bufferChainStep, hf]
      simp only [runBufferChain, List.foldl_cons] at *
      rw [hstep]
      rw [show List.foldl bufferChainStep ⟨buf, some e, [e]⟩ rest =
          runBufferChain ⟨buf, some e, [e]⟩ rest from rfl]
      rw [runBufferChain_rejected e rest buf [e]]
      have htw : (w :: rest).takeWhile (fun w => w.failure.isNone) = [] := by
        simp [List.takeWhile_cons, hf]
      have hff : firstFailure (w :: rest) = some e := by
        simp [firstFailure, hf]
      rw [htw, hff]
      simp only [chainLogs, hff, htw]
      simp [List.replicate_succ]

/-! ### The actor worker -/

/-- An event of the actor stream: an actor message or a re-exported
agent event. -/
inductive ActorEvent where
  | message (content : String)
  | agentEvent (e : AgentEvent)
deriving DecidableEq, Repr

/-- The actor status. -/
inductive ActorStatus where
  | preparing
  | running
  | idle
deriving DecidableEq, Repr

/-- The event history of the actor: all events so far plus the index of
the first event not yet delivered by a broadcast. -/
structure EventHistory where
  eventIdx : Nat
  events : List ActorEvent
deriving DecidableEq, Repr

/-- `EventHistory.push`. -/
def EventHistory.push (h : EventHistory) (e : ActorEvent) : EventHistory :=
  { h with events := h.events ++ [e] }

/-- `EventHistory.advance`: the events since the previous broadcast,
advancing the index past them. -/
def EventHistory.advance (h : EventHistory) : EventHistory × List ActorEvent :=
  let delta := h.events.drop h.eventIdx
  ({ h with eventIdx := h.eventIdx + delta.length }, delta)

/-- `EventHistory.pastEvents`: everything already delivered. -/
def EventHistory.pastEvents (h : EventHistory) : List ActorEvent :=
  h.events.take h.eventIdx

/-- The state of an `AgentState` as cached by the worker. -/
structure AgentState where
  systemPrompt : String
  messages : List Message
  tools : List Tool

/-- The mutable state of one `ActorWorker`.  `pendingWrites` records the
buffer messages handed to `enqueueBufferWrite` (the chain itself is
modelled by `runBufferChain`); `now` is the clock read by
`Date.now()`. -/
structure WorkerState where
  userId : Int
  now : Int
  currentStatus : ActorStatus
  events : EventHistory
  agentState : Option AgentState
  buffer : List BufferMessage
  queue : List BufferMessage
  pendingWrites : List BufferMessage
  hasEmaReplyInRun : Bool
  runActive : Bool
  resumeStateAfterAbort : Bool

/-- What a call to `work` did besides updating state: threw a
precondition error, aborted the active run, or kicked the queue
processor. -/
inductive WorkOutcome where
  | threw (msg : String)
  | abortedCurrentRun
  | startedProcessQueue
deriving DecidableEq, Repr

/-- `ActorWorker.isBusy`. -/
def isBusyW (st : WorkerState) : Bool :=
  st.currentStatus != ActorStatus.idle

/-- `ActorWorker.emitEvent`: a structured-reply event marks the run and
enqueues an EMA buffer write; every event is pushed and broadcast
(advancing the history index). -/
def emitEventW (st : WorkerState) (e : ActorEvent) : WorkerState :=
  let st1 :=
    match e with
    | .agentEvent (.emaReplyReceived c) =>
      { st with
        hasEmaReplyInRun := true
        pendingWrites := st.pendingWrites ++
          [bufferMessageFromEma st.userId (c.getD "") st.now] }
    | _ => st
  { st1 with events := (st1.events.push e).advance.1 }

/-- `ActorWorker.setStatus`: updates the status and broadcasts. -/
def setStatusW (st : WorkerState) (s : ActorStatus) : WorkerState :=
  { st with currentStatus := s, events := st.events.advance.1 }

/-- The text of the first input (all inputs are text once validation
passed). -/
def firstTextOf : List Content → String
  | Content.text t :: _ => t
  | _ => ""

/-- `ActorWorker.work`: validates the batch (non-empty, text-only) and
throws before touching any state; then emits the received-input message,
pushes the batch onto the queue and the write chain, and either aborts
the active run (setting the resume flag iff no structured reply has
been produced in the run) or kicks the queue processor. -/
def work (st : WorkerState) (inputs : List Content) :
    WorkerState × WorkOutcome :=
  if inputs.isEmpty then
    (st, .threw "No inputs provided")
  else if inputs.any (fun c => !c.isText) then
    (st, .threw "Only text input is supported currently")
  else
    let st1 := emitEventW st
      (.message ("Received input: " ++ firstTextOf inputs ++ "."))
    let bm := bufferMessageFromUser st1.userId "User" inputs st1.now
    let st2 := { st1 with
                 queue := st1.queue ++ [bm]
                 pendingWrites := st1.pendingWrites ++ [bm] }
    if isBusyW st2 then
      ({ st2 with resumeStateAfterAbort := !st2.hasEmaReplyInRun },
        .abortedCurrentRun)
    else
      (st2, .startedProcessQueue)

/-- One queue pickup of `ActorWorker.processQueue` up to the run start:
status `preparing`, splice all queued batches, resume the cached state
(appending the batches as user messages) when the resume flag is set and
a state is cached — otherwise build a fresh state with the injected
system prompt — then reset the flags and set status `running`. -/
def processQueuePickup (fmt : Int → String) (cfgPrompt : String)
    (baseTools : List Tool) (st : WorkerState) : WorkerState :=
  let st1 := setStatusW st .preparing
  let batches := st1.queue
  let st2 := { st1 with queue := [] }
  let newState :=
    match st2.agentState, st2.resumeStateAfterAbort with
    | some cached, true =>
      { cached with messages :=
          cached.messages ++ batches.map (bufferMessageToUserMessage fmt) }
    | _, _ =>
      { systemPrompt := buildSystemPrompt fmt st2.buffer cfgPrompt,
        messages := batches.map (bufferMessageToUserMessage fmt),
        tools := baseTools }
  let st3 := { st2 with
               agentState := some newState
               resumeStateAfterAbort := false
               hasEmaReplyInRun := false
               runActive := true }
  setStatusW st3 .running

/-- The `finally` block after a run settles: clear the run handle, drop
the cached state unless a resume is pending, and go idle when the queue
is empty and no resume is pending. -/
def runFinishedCleanup (st : WorkerState) : WorkerState :=
  let st1 := { st with runActive := false }
  let st2 :=
    if st1.resumeStateAfterAbort then st1
    else { st1 with agentState := none }
  if st2.queue.isEmpty && !st2.resumeStateAfterAbort then
    setStatusW st2 .idle
  else
    st2

/-- C10.  Calling `work` with an empty batch, or with any non-text
content item, throws synchronously and leaves the worker state exactly
as it was: no buffer message is appended or enqueued, the queue, event
stream and status are untouched. -/
theorem work_invalid_inputs_throws (st : WorkerState) (inputs : List Content)
    (h : inputs = [] ∨ ∃ c ∈ inputs, c.isText = false) :
    (work st inputs).1 = st ∧
    ∃ msg, (work st inputs).2 = WorkOutcome.threw msg := by
  rcases h with rfl | ⟨c, hc, hct⟩
  · exact ⟨rfl, "No inputs provided", rfl⟩
  · have hany : inputs.any (fun c => !c.isText) = true :=
      List.any_eq_true.mpr ⟨c, hc, by rw [hct]; rfl⟩
    have hnonempty : inputs.isEmpty = false := by
      cases inputs with
      | nil => cases hc
      | cons a l => rfl
    refine ⟨?_, "Only text input is supported currently", ?_⟩ <;>
      simp [work, hnonempty, hany]

/-- A concrete idle worker used for witnesses. -/
def sampleWorker : WorkerState :=
  { userId := 1, now := 0, currentStatus := .idle,
    events := ⟨0, []⟩, agentState := none, buffer := [], queue := [],
    pendingWrites := [], hasEmaReplyInRun := false, runActive := false,
    resumeStateAfterAbort := false }

/-- Witness for C10 at a concrete non-text input batch. -/
theorem work_invalid_inputs_throws_witness :
    ([Content.other "img"] = [] ∨
      ∃ c ∈ [Content.other "img"], c.isText = false) ∧
    ((work sampleWorker [Content.other "img"]).1 = sampleWorker ∧
      ∃ msg, (work sampleWorker [Content.other "img"]).2 =
        WorkOutcome.threw msg) :=
  ⟨Or.inr ⟨Content.other "img", by decide, rfl⟩,
    work_invalid_inputs_throws sampleWorker [Content.other "img"]
      (Or.inr ⟨Content.other "img", by decide, rfl⟩)⟩

/-- C7.  When `work` is called while the actor is busy, the run is
aborted and the resume flag is set iff no structured reply has been
emitted during the run; at the next queue pickup (after the aborted run
settles), a set flag resumes the cached `AgentState` with the new input
appended as a user message, and an unset flag builds a fresh state. -/
theorem preemption_resume_policy
    (fmt : Int → String) (cfgPrompt : String) (baseTools : List Tool)
    (st : WorkerState) (inputs : List Content) (cached : AgentState)
    (hbusy : st.currentStatus ≠ ActorStatus.idle)
    (hne : inputs ≠ [])
    (htext : ∀ c ∈ inputs, c.isText = true)
    (hcached : st.agentState = some cached)
    (hq : st.queue = []) :
    (work st inputs).2 = WorkOutcome.abortedCurrentRun ∧
    (work st inputs).1.resumeStateAfterAbort = !st.hasEmaReplyInRun ∧
    (st.hasEmaReplyInRun = false →
      (processQueuePickup fmt cfgPrompt baseTools
          (runFinishedCleanup (work st inputs).1)).agentState =
        some { cached with messages := cached.messages ++
          [bufferMessageToUserMessage fmt
            (bufferMessageFromUser st.userId "User" inputs st.now)] }) ∧
    (st.hasEmaReplyInRun = true →
      (processQueuePickup fmt cfgPrompt baseTools
          (runFinishedCleanup (work st inputs).1)).agentState =
        some { systemPrompt := buildSystemPrompt fmt st.buffer cfgPrompt
               messages := [bufferMessageToUserMessage fmt
                 (bufferMessageFromUser st.userId "User" inputs st.now)]
               tools := baseTools }) := by
  have hnonempty : inputs.isEmpty = false := by
    cases inputs with
    | nil => exact absurd rfl hne
    | cons a l => rfl
  have hany : inputs.any (fun c => !c.isText) = false := by
    rw [List.any_eq_false]
    intro c hc
    rw [htext c hc]
    simp
  have hwork : work st inputs =
      ({ st with
          events := ((st.events.push
            (.message ("Received input: " ++ firstTextOf inputs ++ "."))).advance).1
          queue := st.queue ++ [bufferMessageFromUser st.userId "User" inputs st.now]
          pendingWrites := st.pendingWrites ++
            [bufferMessageFromUser st.userId "User" inputs st.now]
          resumeStateAfterAbort := !st.hasEmaReplyInRun },
        WorkOutcome.abortedCurrentRun) := by
    have hb : (st.currentStatus != ActorStatus.idle) = true := by
      simpa [bne_iff_ne] using hbusy
    simp only [work, hnonempty, Bool.false_eq_true, if_false, hany,
      emitEventW, isBusyW, hb, if_true]
  refine ⟨by rw [hwork], by rw [hwork], ?_, ?_⟩
  · intro hema
    rw [hwork]
    simp only [runFinishedCleanup, hema, Bool.not_false, if_true, hq]
    simp only [processQueuePickup, setStatusW, hcached, hq]
    simp
  · intro hema
    rw [hwork]
    simp only [runFinishedCleanup, hema, Bool.not_true, if_false, hq]
    simp only [processQueuePickup, setStatusW, hq]
    simp

/-- A concrete cached agent state for the C7 witness. -/
def cachedState : AgentState :=
  { systemPrompt := "sp", messages := [Message.user [Content.text "hi"]],
    tools := [] }

/-- A concrete busy worker for the C7 witness. -/
def busyWorker : WorkerState :=
  { sampleWorker with
    currentStatus := .running
    agentState := some cachedState
    runActive := true }

/-- Witness for C7 at a concrete busy worker and a one-item text
batch. -/
theorem preemption_resume_policy_witness :
    (busyWorker.currentStatus ≠ ActorStatus.idle ∧
      ([Content.text "more"] : List Content) ≠ [] ∧
      (∀ c ∈ [Content.text "more"], c.isText = true) ∧
      busyWorker.agentState = some cachedState ∧ busyWorker.queue = []) ∧
    ((work busyWorker [Content.text "more"]).2 =
        WorkOutcome.abortedCurrentRun ∧
      (work busyWorker [Content.text "more"]).1.resumeStateAfterAbort =
        !busyWorker.hasEmaReplyInRun ∧
      (busyWorker.hasEmaReplyInRun = false →
        (processQueuePickup (fun _ => "t") "cfg" []
            (runFinishedCleanup (work busyWorker [Content.text "more"]).1)).agentState =
          some { cachedState with messages := cachedState.messages ++
            [bufferMessageToUserMessage (fun _ => "t")
              (bufferMessageFromUser busyWorker.userId "User"
                [Content.text "more"] busyWorker.now)] }) ∧
      (busyWorker.hasEmaReplyInRun = true →
        (processQueuePickup (fun _ => "t") "cfg" []
            (runFinishedCleanup (work busyWorker [Content.text "more"]).1)).agentState =
          some { systemPrompt := buildSystemPrompt (fun _ => "t")
                   busyWorker.buffer "cfg"
                 messages := [bufferMessageToUserMessage (fun _ => "t")
                   (bufferMessageFromUser busyWorker.userId "User"
                     [Content.text "more"] busyWorker.now)]
                 tools := [] })) :=
  ⟨⟨by decide, by decide, by decide, rfl, rfl⟩,
    preemption_resume_policy (fun _ => "t") "cfg" [] busyWorker
      [Content.text "more"] cachedState (by decide) (by decide) (by decide)
      rfl rfl⟩

/-! ### Subscriber snapshot delivery -/

/-- The operations that trigger a broadcast: `emitEvent` (push then
broadcast) and `setStatus` (broadcast only). -/
inductive ActorOp where
  | emit (e : ActorEvent)
  | setStatus (s : ActorStatus)

/-- Applying one operation to the event history, returning the delta
handed to every subscriber by the broadcast. -/
def applyOp (h : EventHistory) (op : ActorOp) : EventHistory × List ActorEvent :=
  match op with
  | .emit e => (h.push e).advance
  | .setStatus _ => h.advance

/-- Running operations before any subscriber is attached (the broadcast
still advances the history). -/
def runOpsPre (h : EventHistory) (ops : List ActorOp) : EventHistory :=
  ops.foldl (fun h op => (applyOp h op).1) h

/-- Running operations with a subscriber attached, collecting the
`events[]` array of every snapshot it receives. -/
def runOpsSub (h : EventHistory) : List ActorOp → EventHistory × List (List ActorEvent)
  | [] => (h, [])
  | op :: rest =>
    let r := applyOp h op
    let rr := runOpsSub r.1 rest
    (rr.1, r.2 :: rr.2)

/-- The events emitted by a sequence of operations, in order. -/
def emittedEvents (ops : List ActorOp) : List ActorEvent :=
  ops.filterMap (fun op => match op with | .emit e => some e | _ => none)

/-- The history is fully delivered: every pushed event has been covered
by a broadcast. -/
def synced (h : EventHistory) : Prop :=
  h.eventIdx = h.events.length

theorem applyOp_synced {h : EventHistory} (op : ActorOp) (hs : synced h) :
    synced (applyOp h op).1 ∧
    (applyOp h op).1.events = h.events ++ emittedEvents [op] ∧
    (applyOp h op).2 = emittedEvents [op] := by
  have hsyn : h.eventIdx = h.events.length := hs
  cases op with
  | emit e =>
    have hdrop : (h.events ++ [e]).drop h.eventIdx = [e] := by
      rw [hsyn]; exact List.drop_left h.events [e]
    refine ⟨?_, ?_, ?_⟩
    · simp [applyOp, EventHistory.push, EventHistory.advance, synced, hdrop, hsyn]
    · simp [applyOp, EventHistory.push, EventHistory.advance, emittedEvents]
    · simp [applyOp, EventHistory.push, EventHistory.advance, hdrop, emittedEvents]
  | setStatus s =>
    have hdrop : h.events.drop h.eventIdx = [] := by
      rw [hsyn]; simp
    refine ⟨?_, ?_, ?_⟩
    · simp [applyOp, EventHistory.advance, synced, hdrop, hsyn]
    · simp [applyOp, EventHistory.advance, emittedEvents]
    · simp [applyOp, EventHistory.advance, hdrop, emittedEvents]

theorem runOpsPre_synced (ops : List ActorOp) :
    ∀ h : EventHistory, synced h →
      synced (runOpsPre h ops) ∧
      (runOpsPre h ops).events = h.events ++ emittedEvents ops := by
  induction ops with
  | nil => intro h hs; exact ⟨hs, by simp [runOpsPre, emittedEvents]⟩
  | cons op rest ih =>
    intro h hs
    obtain ⟨h1, h2, _⟩ := applyOp_synced op hs
    obtain ⟨h3, h4⟩ := ih (applyOp h op).1 h1
    refine ⟨h3, ?_⟩
    rw [show runOpsPre h (op :: rest) = runOpsPre (applyOp h op).1 rest from rfl]
    rw [h4, h2]
    cases op with
    | emit e => simp [emittedEvents]
    | setStatus s => simp [emittedEvents]

theorem runOpsSub_flatten (ops : List ActorOp) :
    ∀ h : EventHistory, synced h →
      (runOpsSub h ops).2.flatten = emittedEvents ops := by
  induction ops with
  | nil => intro h hs; simp [runOpsSub, emittedEvents]
  | cons op rest ih =>
    intro h hs
    obtain ⟨h1, _, h2⟩ := applyOp_synced op hs
    rw [show runOpsSub h (op :: rest) =
      ((runOpsSub (applyOp h op).1 rest).1,
        (applyOp h op).2 :: (runOpsSub (applyOp h op).1 rest).2) from rfl]
    simp only [List.flatten_cons]
    rw [ih (applyOp h op).1 h1, h2]
    cases op with
    | emit e => simp [emittedEvents]
    | setStatus s => simp [emittedEvents]

/-- C8.  For a subscriber attaching after `pre` and observing `post`,
the subscribe-time replay (all past events) followed by the
concatenation of the delivered broadcast deltas is exactly the full
emitted event sequence, without duplication or loss. -/
theorem subscriber_receives_full_sequence (pre post : List ActorOp) :
    (runOpsPre ⟨0, []⟩ pre).pastEvents ++
        (runOpsSub (runOpsPre ⟨0, []⟩ pre) post).2.flatten =
      emittedEvents (pre ++ post) := by
  have hs0 : synced (⟨0, []⟩ : EventHistory) := rfl
  obtain ⟨hsync, hevents⟩ := runOpsPre_synced pre ⟨0, []⟩ hs0
  have hpast : (runOpsPre ⟨0, []⟩ pre).pastEvents =
      (runOpsPre ⟨0, []⟩ pre).events := by
    rw [EventHistory.pastEvents, hsync]
    exact List.take_length _
  rw [hpast, hevents, runOpsSub_flatten post _ hsync]
  simp [emittedEvents, List.filterMap_append]

/-! ### History summarisation (CLI agent context manager) -/

/-- Message roles of the CLI agent variant. -/
inductive Role5 where
  | system
  | user
  | assistant
  | tool
deriving DecidableEq, Repr

/-- A message of the CLI agent history: role, textual content and the
optional tool-call list (only the called function names matter to the
summariser). -/
structure Msg005 where
  role : Role5
  content : String
  toolCalls : Option (List String) := none
deriving DecidableEq, Repr

/-- The out-of-range default for indexed access (indices are always in
range in the algorithm). -/
def dfltMsg : Msg005 := ⟨.system, "", none⟩

/-- Indices of all user messages, skipping the system prompt at index
0. -/
def userIndices (msgs : List Msg005) : List Nat :=
  (List.range msgs.length).filter
    (fun i => decide (0 < i ∧ (msgs.getD i dfltMsg).role = Role5.user))

/-- One line of the raw execution-round join built by `createSummary`. -/
def msgSummaryLine (m : Msg005) : String :=
  match m.role with
  | .assistant =>
    "Assistant: " ++ m.content ++ "\n" ++
      (match m.toolCalls with
       | some ns => "  → Called tools: " ++ String.intercalate ", " ns ++ "\n"
       | none => "")
  | .tool => "  ← Tool returned: " ++ m.content ++ "...\n"
  | _ => ""

/-- `ContextManager.createSummary`: builds the raw textual join of one
execution round and asks the LLM (modelled as `llmSum`, applied to the
round join that the fixed meta-prompt wraps) for a concise summary;
on failure it falls back to the raw join. -/
def createSummary (llmSum : String → Option String) (messages : List Msg005)
    (roundNum : Nat) : String :=
  if messages.isEmpty then ""
  else
    let summaryContent := "Round " ++ toString roundNum
      ++ " execution process:\n\n"
      ++ String.join (messages.map msgSummaryLine)
    match llmSum summaryContent with
    | some content => content
    | none => summaryContent

/-- The synthetic user message carrying a round summary. -/
def summaryUserMessage (s : String) : Msg005 :=
  ⟨.user, "[Assistant Execution Summary]\n\n" ++ s, none⟩

/-- The per-round rebuild of `summarizeMessages`: for each user index,
the user message followed — when its execution round is non-empty and a
summary text is produced — by one synthetic summary message. -/
def buildRounds (llmSum : String → Option String) (msgs : List Msg005) :
    List Nat → Nat → List Msg005
  | [], _ => []
  | u :: rest, i =>
    let nextIdx := match rest with | [] => msgs.length | v :: _ => v
    let execMsgs := (msgs.take nextIdx).drop (u + 1)
    (msgs.getD u dfltMsg ::
      (if execMsgs.isEmpty then []
       else
         let s := createSummary llmSum execMsgs i
         if s = "" then [] else [summaryUserMessage s]))
      ++ buildRounds llmSum msgs rest (i + 1)

/-- The context-manager state driving summarisation. -/
structure CMState where
  messages : List Msg005
  apiTotalTokens : Nat
  tokenLimit : Nat
  skipNextTokenCheck : Bool
deriving DecidableEq, Repr

/-- `ContextManager.summarizeMessages`: honour the skip-once flag, check
both the local estimate and the API-reported count against the limit,
require at least one user message, then rebuild the history as the
system prompt followed by the per-round blocks and set the skip-once
flag. -/
def summarizeMessages (est : List Msg005 → Nat)
    (llmSum : String → Option String) (st : CMState) : CMState :=
  if st.skipNextTokenCheck then { st with skipNextTokenCheck := false }
  else if st.tokenLimit < est st.messages ∨
      st.tokenLimit < st.apiTotalTokens then
    if (userIndices st.messages).length < 1 then st
    else
      { st with
        messages := st.messages.getD 0 dfltMsg ::
          buildRounds llmSum st.messages (userIndices st.messages) 1
        skipNextTokenCheck := true }
  else st

theorem userMessages_sublist_buildRounds
    (llmSum : String → Option String) (msgs : List Msg005) :
    ∀ (uidxs : List Nat) (i : Nat),
      (uidxs.map (fun u => msgs.getD u dfltMsg)).Sublist
        (buildRounds llmSum msgs uidxs i) := by
  intro uidxs
  induction uidxs with
  | nil => intro i; simp [buildRounds]
  | cons u rest ih =>
    intro i
    simp only [buildRounds, List.cons_append, List.map_cons]
    exact List.Sublist.cons₂ _
      ((ih (i + 1)).trans (List.sublist_append_right _ _))

/-- C6.  When summarisation triggers, the new history is the head
(system prompt) followed, for each original user message in order, by
that message and — when its execution round is non-empty and a summary
text is produced — one synthetic `[Assistant Execution Summary]` user
message; in particular no original user message is dropped, and the
skip-once flag is set. -/
theorem summarize_preserves_user_messages
    (est : List Msg005 → Nat) (llmSum : String → Option String) (st : CMState)
    (hskip : st.skipNextTokenCheck = false)
    (htrigger : st.tokenLimit < est st.messages ∨
      st.tokenLimit < st.apiTotalTokens)
    (husers : userIndices st.messages ≠ []) :
    (summarizeMessages est llmSum st).messages =
      st.messages.getD 0 dfltMsg ::
        buildRounds llmSum st.messages (userIndices st.messages) 1 ∧
    ((userIndices st.messages).map (fun u => st.messages.getD u dfltMsg)).Sublist
      (summarizeMessages est llmSum st).messages ∧
    (summarizeMessages est llmSum st).skipNextTokenCheck = true := by
  have hlen : ¬ (userIndices st.messages).length < 1 := by
    cases h : userIndices st.messages with
    | nil => exact absurd h husers
    | cons a l => simp
  have heq : summarizeMessages est llmSum st =
      { st with
        messages := st.messages.getD 0 dfltMsg ::
          buildRounds llmSum st.messages (userIndices st.messages) 1
        skipNextTokenCheck := true } := by
    unfold summarizeMessages
    rw [if_neg (by rw [hskip]; exact Bool.false_ne_true),
      if_pos htrigger, if_neg hlen]
  refine ⟨by rw [heq], ?_, by rw [heq]⟩
  rw [heq]
  exact List.Sublist.cons _
    (userMessages_sublist_buildRounds llmSum st.messages
      (userIndices st.messages) 1)

/-- A concrete over-limit history for the C6 witness. -/
def sampleCM : CMState :=
  { messages := [⟨.system, "sys", none⟩, ⟨.user, "u1", none⟩,
      ⟨.assistant, "a1", some ["add"]⟩, ⟨.tool, "5", none⟩,
      ⟨.user, "u2", none⟩],
    apiTotalTokens := 0, tokenLimit := 10, skipNextTokenCheck := false }

/-- Witness for C6 at a concrete over-limit history. -/
theorem summarize_preserves_user_messages_witness :
    (sampleCM.skipNextTokenCheck = false ∧
      (sampleCM.tokenLimit < (fun _ => 100) sampleCM.messages ∨
        sampleCM.tokenLimit < sampleCM.apiTotalTokens) ∧
      userIndices sampleCM.messages ≠ []) ∧
    ((summarizeMessages (fun _ => 100) (fun _ => some "S") sampleCM).messages =
        sampleCM.messages.getD 0 dfltMsg ::
          buildRounds (fun _ => some "S") sampleCM.messages
            (userIndices sampleCM.messages) 1 ∧
      ((userIndices sampleCM.messages).map
          (fun u => sampleCM.messages.getD u dfltMsg)).Sublist
        (summarizeMessages (fun _ => 100) (fun _ => some "S") sampleCM).messages ∧
      (summarizeMessages (fun _ => 100) (fun _ => some "S")
        sampleCM).skipNextTokenCheck = true) :=
  ⟨⟨rfl, Or.inl (by decide), by decide⟩,
    summarize_preserves_user_messages (fun _ => 100) (fun _ => some "S")
      sampleCM rfl (Or.inl (by decide)) (by decide)⟩

/-! ### The timed-task async iterator -/

/-- The closure state of `iterateTimed`: the linked-list queue of fired
dates not yet consumed, whether a consumer is waiting on
`resolveResult`, the `tab.cancelled` flag, plus the observable traces —
the dates the consumer has received and the dates the `startTimed`
callback has fired. -/
structure IterState where
  queued : List Int
  waiting : Bool
  cancelled : Bool
  consumed : List Int
  fired : List Int
deriving DecidableEq, Repr

/-- An interleaving event: the schedule fires a date, the consumer calls
`next()`, or the iterator is returned (`tab.cancel()`). -/
inductive IterOp where
  | fire (d : Int)
  | next
  | cancel

/-- One event of `iterateTimed`: a fire resolves a waiting consumer
directly or appends to the linked list; `next()` returns done when
cancelled, dequeues the head when available, and otherwise waits;
`return()` cancels the schedule. -/
def iterStep (s : IterState) (op : IterOp) : IterState :=
  match op with
  | .fire d =>
    let s1 := { s with fired := s.fired ++ [d] }
    if s1.waiting then
      { s1 with consumed := s1.consumed ++ [d], waiting := false }
    else
      { s1 with queued := s1.queued ++ [d] }
  | .next =>
    if s.cancelled then s
    else
      match s.queued with
      | d :: rest => { s with consumed := s.consumed ++ [d], queued := rest }
      | [] => { s with waiting := true }
  | .cancel => { s with cancelled := true }

/-- The initial closure state of one `iterateTimed` iteration. -/
def initIter : IterState := ⟨[], false, false, [], []⟩

/-- Running an interleaving of fires, next-calls and cancellation. -/
def runIter (ops : List IterOp) : IterState :=
  ops.foldl iterStep initIter

/-- The delivery invariant of the iterator: the consumed dates followed
by the queued dates are exactly the fired dates, and a waiting consumer
implies an empty queue. -/
def iterInv (s : IterState) : Prop :=
  s.consumed ++ s.queued = s.fired ∧ (s.waiting = true → s.queued = [])

theorem iterStep_inv {s : IterState} (op : IterOp) (h : iterInv s) :
    iterInv (iterStep s op) := by
  obtain ⟨h1, h2⟩ := h
  cases op with
  | fire d =>
    by_cases hw : s.waiting
    · have hq : s.queued = [] := h2 hw
      refine ⟨?_, ?_⟩ <;> simp [iterStep, hw, hq, ← h1]
    · refine ⟨?_, ?_⟩ <;>
        simp [iterStep, hw, ← h1, List.append_assoc]
  | next =>
    by_cases hc : s.cancelled
    · simpa [iterStep, hc] using ⟨h1, h2⟩
    · cases hq : s.queued with
      | nil =>
        refine ⟨?_, ?_⟩ <;> simp [iterStep, hc, hq, ← h1]
      | cons d rest =>
        have hw : s.waiting = false := by
          cases hwv : s.waiting with
          | false => rfl
          | true => rw [h2 hwv] at hq; cases hq
        refine ⟨?_, ?_⟩ <;>
          simp [iterStep, hc, hq, hw, ← h1, List.append_assoc]
  | cancel =>
    exact ⟨h1, h2⟩

theorem runIter_inv (ops : List IterOp) : iterInv (runIter ops) := by
  suffices h : ∀ s : IterState, iterInv s → iterInv (ops.foldl iterStep s) from
    h initIter ⟨rfl, fun _ => rfl⟩
  induction ops with
  | nil => intro s hs; exact hs
  | cons op rest ih =>
    intro s hs
    exact ih _ (iterStep_inv op hs)

/-- C9.  For every finite interleaving of schedule fires, consumer
`next()` calls and cancellation, the sequence of dates the consumer has
received is a prefix, in firing order, of the sequence of dates the
schedule fired. -/
theorem iterateTimed_consumed_prefix (ops : List IterOp) :
    (runIter ops).consumed <+: (runIter ops).fired :=
  ⟨(runIter ops).queued, (runIter_inv ops).1⟩

end EMA
